/-
Verification of the RV64G backend of the `smol` compiler
(`src/back/asm.rs`, `src/middle/tir.rs`).

The operand and instruction model, its derived queries (`used_registers`,
`offset`), the factory operations (`jump`, `call`, `mov`, `read`, `write`)
and the `Display` rendering are translated directly from `src/back/asm.rs`.
Rust `i32` arithmetic is modelled on `Int` with explicit two's-complement
wrapping at 2^32; fallible operations (Rust panics) return `Option`.

The code-generation entry point (`src/back/codegen.rs` is declared in
`src/back.rs` but absent from the sources) and the final text emission
(`Program::asm_code` is a `todo!` stub) are modelled from the spec; each
such definition carries a doc comment starting `Modelled from the spec:`.
-/
import Mathlib

/-- Identifiers (`type Id = internment::Intern<String>` in `src/common.rs`);
interning only affects sharing, so an identifier is just its string. -/
abbrev Ident := String

/-- Registers for the actual risc-v machine, in the order in the register
file (`enum Register` in `src/back/asm.rs`). -/
inductive Register
  | Zero | Ra | Sp | Gp | Tp
  | T0 | T1 | T2
  | Fp | S1
  | A0 | A1 | A2 | A3 | A4 | A5 | A6 | A7
  | S2 | S3 | S4 | S5 | S6 | S7 | S8 | S9 | S10 | S11
  | T3 | T4 | T5 | T6
deriving DecidableEq, Repr

/-- Rendering of registers (the `Display` attribute strings on `Register`). -/
def regName : Register → String
  | .Zero => "zero" | .Ra => "ra" | .Sp => "sp" | .Gp => "gp" | .Tp => "tp"
  | .T0 => "t0" | .T1 => "t1" | .T2 => "t2"
  | .Fp => "fp" | .S1 => "s1"
  | .A0 => "a0" | .A1 => "a1" | .A2 => "a2" | .A3 => "a3"
  | .A4 => "a4" | .A5 => "a5" | .A6 => "a6" | .A7 => "a7"
  | .S2 => "s2" | .S3 => "s3" | .S4 => "s4" | .S5 => "s5" | .S6 => "s6"
  | .S7 => "s7" | .S8 => "s8" | .S9 => "s9" | .S10 => "s10" | .S11 => "s11"
  | .T3 => "t3" | .T4 => "t4" | .T5 => "t5" | .T6 => "t6"

/-- Two's-complement wrap of an integer into the `i32` range, making Rust
release-mode `i32` addition overflow explicit. -/
def wrap32 (x : Int) : Int := (x + 2147483648) % 4294967296 - 2147483648

/-- Rust `i32` addition (wrapping at 2^32). -/
def add32 (a b : Int) : Int := wrap32 (a + b)

/-- An integer lies in the `i32` range (what a Rust `i32` field always
satisfies). -/
def wf32 (x : Int) : Prop := -2147483648 ≤ x ∧ x < 2147483648

instance (x : Int) : Decidable (wf32 x) := by unfold wf32; infer_instance

/-- Memory locations that RISC-V instructions can access to
(`enum Memory` in `src/back/asm.rs`). -/
inductive Memory
  /-- A memory location whose value is in the given register + offset. -/
  | Mem (r : Register) (off : Int)
  /-- A global variable with offset; the first field is an index into the
  globals of the program. -/
  | Global (index : Nat) (offset : Int)
deriving DecidableEq, Repr

/-- Return registers that are used to describe this location
(`Memory::used_registers`). -/
def Memory.used_registers : Memory → Option Register
  | .Mem r _ => some r
  | .Global _ _ => none

/-- Get a memory location with given offset from this location
(`Memory::offset`; the `i32` addition `off + offset` wraps). -/
def Memory.offset : Memory → Int → Memory
  | .Mem r off, o => .Mem r (add32 off o)
  | .Global index off, o => .Global index (add32 off o)

/-- The stored offset of a memory location is a genuine `i32` value. -/
def Memory.wf : Memory → Prop
  | .Mem _ off => wf32 off
  | .Global _ off => wf32 off

instance (m : Memory) : Decidable m.wf := by cases m <;> (unfold Memory.wf; infer_instance)

/-- Locations (both memory and register) that RISC-V instructions can
access to (`enum Location` in `src/back/asm.rs`). -/
inductive Location
  | MemoryL (m : Memory)
  | Reg (r : Register)
deriving DecidableEq, Repr

/-- Return registers that are used to describe this location
(`Location::used_registers`). -/
def Location.used_registers : Location → Option Register
  | .MemoryL m => m.used_registers
  | .Reg r => some r

/-- Get a memory location with given offset from this location
(`Location::offset`); a non-zero offset from a register hits
`unimplemented!` in the source, modelled as `none`. -/
def Location.offset : Location → Int → Option Location
  | .Reg r, o => if o = 0 then some (.Reg r) else none
  | .MemoryL m, o => some (.MemoryL (m.offset o))

/-- A location is well formed when its memory part is. -/
def Location.wf : Location → Prop
  | .Reg _ => True
  | .MemoryL m => m.wf

instance (l : Location) : Decidable l.wf := by cases l <;> (unfold Location.wf; infer_instance)

/-- Conditions for branching (`enum Condition` in `src/back/asm.rs`). -/
inductive Condition
  | Equal | NotEqual | Less | LessEq | Greater | GreaterEq
deriving DecidableEq, Repr

/-- Rendering of conditions (the `Display` attribute strings on `Condition`). -/
def condName : Condition → String
  | .Equal => "eq" | .NotEqual => "ne" | .Less => "lt"
  | .LessEq => "le" | .Greater => "gt" | .GreaterEq => "ge"

/-- Arithmetic operations used in the `Arith` family of instructions
(`enum ArithOp` in `src/back/asm.rs`). -/
inductive ArithOp
  | Add | Sub | Mul | Div | Slt | And | Or | Xor | Srl | Sra | Sll
deriving DecidableEq, Repr

/-- Rendering of arithmetic operations (`Display` on `ArithOp`). -/
def arithOpName : ArithOp → String
  | .Add => "add" | .Sub => "sub" | .Mul => "mul" | .Div => "div"
  | .Slt => "slt" | .And => "and" | .Or => "or" | .Xor => "xor"
  | .Srl => "srl" | .Sra => "sra" | .Sll => "sll"

/-- Jump targets (`enum JumpTarget` in `src/back/asm.rs`): a local target
(mangled in the final assembly code) or a global one. -/
inductive JumpTarget
  | Local (target : Ident)
  | Global (target : Ident)
deriving DecidableEq, Repr

/-- A RISC-V instruction (`enum Instruction` in `src/back/asm.rs`). -/
inductive Instruction
  | La (dst : Register) (src : Memory)
  | Ld (dst : Register) (src : Memory)
  | Sd (dst : Memory) (src : Register)
  | Li (dst : Register) (imm : Int)
  | Arith (op : ArithOp) (dst : Register) (lhs : Register) (rhs : Register)
  | ArithI (op : ArithOp) (dst : Register) (lhs : Register) (rhs : Int)
  | Jal (dst : Register) (target : JumpTarget)
  | Jalr (dst : Register) (target : Register)
  | Branch (cond : Condition) (lhs : Register) (rhs : Register) (target : JumpTarget)
  | SCmpZ (dst : Register) (lhs : Register) (cond : Condition)
  | Comment (s : String)
deriving DecidableEq, Repr

/-- Return the registers used by this instruction
(`Instruction::used_registers`), translated arm by arm. -/
def Instruction.used_registers : Instruction → List Register
  | .La dst src => dst :: src.used_registers.toList
  | .Ld dst src => dst :: src.used_registers.toList
  | .Sd dst src => dst.used_registers.toList ++ [src]
  | .Arith _ dst lhs rhs => [dst, lhs, rhs]
  | .ArithI _ dst lhs _ => [dst, lhs]
  | .Li dst _ => [dst]
  | .Jalr dst target => [target, dst]
  | .Jal dst _ => [dst]
  | .Branch _ lhs rhs _ => [lhs, rhs]
  | .SCmpZ dst lhs _ => [lhs, dst]
  | .Comment _ => []

/-- Create a jump instruction that does not save the return address
(`Instruction::jump`). -/
def Instruction.jump (target : JumpTarget) : Instruction :=
  .Jal .Zero target

/-- Create a jump instruction that emulates a direct call using the ra
register for the return address (`Instruction::call`). -/
def Instruction.call (callee : Ident) : Instruction :=
  .Jal .Ra (.Global callee)

/-- Create an instruction that moves values between registers
(`Instruction::mov`). -/
def Instruction.mov (dst src : Register) : Instruction :=
  .ArithI .Add dst src 0

/-- Generate a single load instruction from given location to the given
register; a move if the source is also a register (`Instruction::read`). -/
def Instruction.read (dst : Register) (src : Location) : Instruction :=
  match src with
  | .Reg r => Instruction.mov dst r
  | .MemoryL m => .Ld dst m

/-- Generate a single store instruction from the given register to the
given location; a move if the target is also a register
(`Instruction::write`). -/
def Instruction.write (dst : Location) (src : Register) : Instruction :=
  match dst with
  | .Reg r => Instruction.mov r src
  | .MemoryL m => .Sd m src

/-- Escaping of one character as in Rust's `Debug` formatting of strings,
modelled for the quote, the backslash and the common control characters. -/
def escapeChar (c : Char) : String :=
  if c = '\"' then "\\\""
  else if c = '\\' then "\\\\"
  else if c = '\n' then "\\n"
  else if c = '\t' then "\\t"
  else if c = '\r' then "\\r"
  else String.singleton c

/-- Rust `Debug` formatting of a string: the escaped text between quotes. -/
def rustDebugString (s : String) : String :=
  "\"" ++ String.join (s.data.map escapeChar) ++ "\""

/-- Rendering of memory locations (the `Display` attributes on `Memory`):
a register location prints as offset, then the register between brackets,
and a global prints through its table index. -/
def memToString : Memory → String
  | .Mem r off => toString off ++ "(" ++ regName r ++ ")"
  | .Global index off => toString off ++ "(global#" ++ toString index ++ ")"

/-- Rendering of jump targets (the `target_to_string` closure inside
`impl Display for Instruction`). -/
def targetToString : JumpTarget → String
  | .Local target => target ++ " # local, basic block"
  | .Global target => target ++ " # global, function"

/-- Rendering of instructions (`impl Display for Instruction` in
`src/back/asm.rs`), translated arm by arm. -/
def instrToString : Instruction → String
  | .La dst src => "la " ++ regName dst ++ ", " ++ memToString src
  | .Ld dst src => "ld " ++ regName dst ++ ", " ++ memToString src
  | .Sd dst src => "sd " ++ regName src ++ ", " ++ memToString dst
  | .Li dst imm => "li " ++ regName dst ++ ", " ++ toString imm
  | .Arith op dst lhs rhs =>
      arithOpName op ++ " " ++ regName dst ++ ", " ++ regName lhs ++ ", " ++ regName rhs
  | .ArithI op dst lhs rhs =>
      arithOpName op ++ "i " ++ regName dst ++ ", " ++ regName lhs ++ ", " ++ toString rhs
  | .Jal dst target => "jal " ++ regName dst ++ ", " ++ targetToString target
  | .Jalr dst target => "jalr " ++ regName dst ++ ", " ++ regName target
  | .Branch cond lhs rhs target =>
      "b" ++ condName cond ++ " " ++ regName lhs ++ ", " ++ regName rhs ++ ", "
        ++ targetToString target
  | .SCmpZ dst lhs cond => "s" ++ condName cond ++ "z " ++ regName dst ++ ", " ++ regName lhs
  | .Comment s => "# " ++ rustDebugString s

/-- The mnemonic the `SCmpZ` display arm produces for a condition. -/
def scmpzMnemonic (cond : Condition) : String := "s" ++ condName cond ++ "z"

/-- One basic block (`struct BasicBlock` in `src/back/asm.rs`). -/
structure BasicBlock where
  id : Ident
  instructions : List Instruction
deriving DecidableEq, Repr

/-- A backend program (`struct Program` in `src/back/asm.rs`); the
`BTreeMap` of basic blocks is modelled as an association list that the
printer orders by key. -/
structure Program where
  id : Ident
  basic_blocks : List (Ident × BasicBlock)
  stack_space : Int
  used_registers : List Register
deriving DecidableEq, Repr

/-- Binary operators of the source AST (`enum BOp` in `src/front/ast.rs`),
referenced by the IR's arithmetic instruction. -/
inductive BOp
  | Mul | Div | Add | Sub | Lt
deriving DecidableEq, Repr

/-- An instruction of the tiny IR (`enum Instruction` in
`src/middle/tir.rs`). -/
inductive Tir.Instruction
  | Copy (dst src : Ident)
  | Const (dst : Ident) (src : Int)
  | Arith (op : BOp) (dst lhs rhs : Ident)
  | Read (x : Ident)
  | Print (x : Ident)
deriving DecidableEq, Repr

/-- A terminator of the tiny IR (`enum Terminator` in `src/middle/tir.rs`). -/
inductive Tir.Terminator
  | Exit
  | Jump (target : Ident)
  | Branch (g tt ff : Ident)
deriving DecidableEq, Repr

/-- A block of the tiny IR (`struct Block` in `src/middle/tir.rs`). -/
structure Tir.Block where
  insn : List Tir.Instruction
  term : List Tir.Terminator
deriving DecidableEq, Repr

/-- A program of the tiny IR (`struct Program` in `src/middle/tir.rs`);
the `BTreeSet` of declarations and the `BTreeMap` of blocks are modelled
as lists. -/
structure Tir.Program where
  decl : List Ident
  block : List (Ident × Tir.Block)
deriving DecidableEq, Repr

/-- Modelled from the spec: the composite label key (owning scope
identifier, local identifier) computed at generation time so that
identically named blocks in different scopes never collide; the source's
mangling lives in the missing `src/back/codegen.rs` and in the `todo!`
body of `Program::asm_code`. -/
def mangleLabel (scope localId : Ident) : Ident :=
  scope ++ "." ++ localId

/-- Modelled from the spec: name of the runtime support symbol for `Read`
(the source only fixes the GC and allocation symbols). -/
def readFn : Ident := "_cflat_read"

/-- Modelled from the spec: name of the runtime support symbol for `Print`. -/
def printFn : Ident := "_cflat_print"

/-- The callee-saved register class the generic save/restore loop works
on: s1--s11 (module documentation of `src/back/asm.rs`; fp and sp are
handled by dedicated prologue/epilogue logic). -/
def calleeSavedRegisters : List Register :=
  [.S1, .S2, .S3, .S4, .S5, .S6, .S7, .S8, .S9, .S10, .S11]

/-- Lookup of an identifier in the identifier-to-offset table. -/
def lookupSlot : List (Ident × Int) → Ident → Option Int
  | [], _ => none
  | (y, off) :: rest, x => if y = x then some off else lookupSlot rest x

/-- Modelled from the spec: frame layout of the missing code generator —
the first reference to a new declared identifier grows the frame by one
word (8 bytes) and records its offset, later references reuse the stored
offset, and a reference to an undeclared identifier is a malformed-input
condition that aborts generation. -/
def slotRef (decl : List Ident) (layout : List (Ident × Int)) (x : Ident) :
    Option (List (Ident × Int) × Int) :=
  if x ∈ decl then
    match lookupSlot layout x with
    | some off => some (layout, off)
    | none => some (layout ++ [(x, 8 * (layout.length : Int))], 8 * (layout.length : Int))
  else none

/-- The stack slot of an identifier, addressed at a constant offset from
the frame pointer. -/
def slotLoc (off : Int) : Location := .MemoryL (.Mem .Fp off)

/-- IR binary operators map onto the register-register arithmetic ops. -/
def bopToArithOp : BOp → ArithOp
  | .Mul => .Mul | .Div => .Div | .Add => .Add | .Sub => .Sub | .Lt => .Slt

/-- Modelled from the spec: per-instruction lowering of the missing code
generator — constants become an immediate-load plus a store to the
destination slot; copies a load then a store; binary arithmetic two loads
into scratch registers, one register-register arithmetic instruction and
a store; Read/Print become calls into runtime support symbols with the
single argument and the single result in the first argument register. -/
def lowerInsn (decl : List Ident) (layout : List (Ident × Int)) :
    Tir.Instruction → Option (List (Ident × Int) × List Instruction)
  | .Const dst v => do
      let (l, off) ← slotRef decl layout dst
      pure (l, [.Li .T0 v, Instruction.write (slotLoc off) .T0])
  | .Copy dst src => do
      let (l1, soff) ← slotRef decl layout src
      let (l2, doff) ← slotRef decl l1 dst
      pure (l2, [Instruction.read .T0 (slotLoc soff), Instruction.write (slotLoc doff) .T0])
  | .Arith op dst lhs rhs => do
      let (l1, loff) ← slotRef decl layout lhs
      let (l2, roff) ← slotRef decl l1 rhs
      let (l3, doff) ← slotRef decl l2 dst
      pure (l3, [Instruction.read .T0 (slotLoc loff), Instruction.read .T1 (slotLoc roff),
                 .Arith (bopToArithOp op) .T0 .T0 .T1, Instruction.write (slotLoc doff) .T0])
  | .Read x => do
      let (l, off) ← slotRef decl layout x
      pure (l, [Instruction.call readFn, Instruction.write (slotLoc off) .A0])
  | .Print x => do
      let (l, off) ← slotRef decl layout x
      pure (l, [Instruction.read .A0 (slotLoc off), Instruction.call printFn])

/-- Modelled from the spec: terminator lowering of the missing code
generator — `Jump` emits one local jump, `Branch` tests the guard against
zero and jumps to `tt` iff it is non-zero with an unconditional jump to
`ff` otherwise, `Exit` returns through the return-address register; a
terminator naming a non-existent block aborts generation. -/
def lowerTerm (scope : Ident) (blockIds : List Ident) (decl : List Ident)
    (layout : List (Ident × Int)) :
    Tir.Terminator → Option (List (Ident × Int) × List Instruction)
  | .Exit => some (layout, [.Jalr .Zero .Ra])
  | .Jump t =>
      if t ∈ blockIds then
        some (layout, [Instruction.jump (.Local (mangleLabel scope t))])
      else none
  | .Branch g tt ff => do
      let (l, goff) ← slotRef decl layout g
      if tt ∈ blockIds ∧ ff ∈ blockIds then
        pure (l, [Instruction.read .T0 (slotLoc goff),
                  .Branch .NotEqual .T0 .Zero (.Local (mangleLabel scope tt)),
                  Instruction.jump (.Local (mangleLabel scope ff))])
      else none

/-- Lowering of an instruction list, threading the frame layout. -/
def lowerInsns (decl : List Ident) :
    List (Ident × Int) → List Tir.Instruction → Option (List (Ident × Int) × List Instruction)
  | layout, [] => some (layout, [])
  | layout, i :: rest => do
      let (l, code) ← lowerInsn decl layout i
      let (l2, code2) ← lowerInsns decl l rest
      pure (l2, code ++ code2)

/-- Lowering of a terminator list, threading the frame layout. -/
def lowerTerms (scope : Ident) (blockIds : List Ident) (decl : List Ident) :
    List (Ident × Int) → List Tir.Terminator → Option (List (Ident × Int) × List Instruction)
  | layout, [] => some (layout, [])
  | layout, t :: rest => do
      let (l, code) ← lowerTerm scope blockIds decl layout t
      let (l2, code2) ← lowerTerms scope blockIds decl l rest
      pure (l2, code ++ code2)

/-- Lowering of one IR block into one basic block whose label is the
composite key of the owning scope and the block's local identifier. -/
def lowerBlock (scope : Ident) (blockIds : List Ident) (decl : List Ident)
    (layout : List (Ident × Int)) (b : Ident × Tir.Block) :
    Option (List (Ident × Int) × (Ident × BasicBlock)) := do
  let (l1, code1) ← lowerInsns decl layout b.2.insn
  let (l2, code2) ← lowerTerms scope blockIds decl l1 b.2.term
  let mid := mangleLabel scope b.1
  pure (l2, (mid, { id := mid, instructions := code1 ++ code2 }))

/-- Lowering of the block map, threading the frame layout. -/
def lowerBlocks (scope : Ident) (blockIds : List Ident) (decl : List Ident) :
    List (Ident × Int) → List (Ident × Tir.Block) →
    Option (List (Ident × Int) × List (Ident × BasicBlock))
  | layout, [] => some (layout, [])
  | layout, b :: rest => do
      let (l, bb) ← lowerBlock scope blockIds decl layout b
      let (l2, bbs) ← lowerBlocks scope blockIds decl l rest
      pure (l2, bb :: bbs)

/-- Rounding a byte count up to the next multiple of 16, the stack
alignment the ABI requires of every frame. -/
def roundUp16 (n : Int) : Int := 16 * ((n + 15) / 16)

/-- Modelled from the spec: the code-generation entry point `code_gen`
(declared in `src/back.rs`, its file `src/back/codegen.rs` is missing) —
it maps an IR program to one backend `Program` with one basic block per
IR block, a 16-byte-aligned frame holding one 8-byte slot per declared
identifier referenced, and the callee-saved registers actually used;
malformed input aborts with no output. -/
def code_gen (p : Tir.Program) : Option Program :=
  (lowerBlocks "main" (p.block.map Prod.fst) p.decl [] p.block).map fun lb =>
    { id := "main"
      basic_blocks := lb.2
      stack_space := roundUp16 (8 * (lb.1.length : Int))
      used_registers := calleeSavedRegisters.filter
        (fun r => lb.2.any (fun b => b.2.instructions.any
          (fun i => i.used_registers.contains r))) }

/-- Insertion into a key-sorted association list of basic blocks. -/
def insertSorted (b : Ident × BasicBlock) :
    List (Ident × BasicBlock) → List (Ident × BasicBlock)
  | [] => [b]
  | x :: xs => if b.1 < x.1 then b :: x :: xs else x :: insertSorted b xs

/-- Sorting of the basic blocks by label, the stable order the printer
emits them in. -/
def sortBlocks (bs : List (Ident × BasicBlock)) : List (Ident × BasicBlock) :=
  bs.foldr insertSorted []

/-- Modelled from the spec: the prologue the printer synthesizes — save
the caller's frame pointer, establish the new frame pointer from the
stack pointer, reserve `stack_space` bytes, then save every used
callee-saved register. -/
def prologueInstructions (p : Program) : List Instruction :=
  [.Sd (.Mem .Sp (-8)) .Fp, Instruction.mov .Fp .Sp, .ArithI .Sub .Sp .Sp p.stack_space]
    ++ p.used_registers.enum.map (fun e => Instruction.Sd (.Mem .Sp (8 * (e.1 : Int))) e.2)

/-- Modelled from the spec: the matching epilogue — restore the same
registers in reverse order, restore frame and stack pointer, and return
through the return-address register. -/
def epilogueInstructions (p : Program) : List Instruction :=
  (p.used_registers.enum.map (fun e => Instruction.Ld e.2 (.Mem .Sp (8 * (e.1 : Int))))).reverse
    ++ [Instruction.mov .Sp .Fp, .Ld .Fp (.Mem .Sp (-8)), .Jalr .Zero .Ra]

/-- One rendered basic block: its label line then one instruction per line. -/
def renderBlock (b : Ident × BasicBlock) : List String :=
  (b.2.id ++ ":") :: b.2.instructions.map (fun i => "  " ++ instrToString i)

/-- Modelled from the spec: the render entry point `Program::asm_code`
(a `todo!` stub in `src/back/asm.rs`) — one instruction or label per
line, blocks emitted in stable sorted order, prologue and epilogue
synthesized around the body. -/
def asm_code (p : Program) : String :=
  let header := [p.id ++ ":"]
  let prologue := (prologueInstructions p).map (fun i => "  " ++ instrToString i)
  let body := ((sortBlocks p.basic_blocks).map renderBlock).flatten
  let epilogue := (epilogueInstructions p).map (fun i => "  " ++ instrToString i)
  String.intercalate "\n" (header ++ prologue ++ body ++ epilogue) ++ "\n"

/-- Registers an instruction reads, written down from the spec's reading
of each instruction form (operands consumed, including the base register
of every register-based memory operand used in address computation). -/
def specReadRegisters : Instruction → List Register
  | .La _ src => src.used_registers.toList
  | .Ld _ src => src.used_registers.toList
  | .Sd dst src => src :: dst.used_registers.toList
  | .Li _ _ => []
  | .Arith _ _ lhs rhs => [lhs, rhs]
  | .ArithI _ _ lhs _ => [lhs]
  | .Jal _ _ => []
  | .Jalr _ target => [target]
  | .Branch _ lhs rhs _ => [lhs, rhs]
  | .SCmpZ _ lhs _ => [lhs]
  | .Comment _ => []

/-- Registers an instruction writes, written down from the spec's reading
of each instruction form (the destination register, and the link register
of the jump-and-link forms). -/
def specWrittenRegisters : Instruction → List Register
  | .La dst _ => [dst]
  | .Ld dst _ => [dst]
  | .Sd _ _ => []
  | .Li dst _ => [dst]
  | .Arith _ dst _ _ => [dst]
  | .ArithI _ dst _ _ => [dst]
  | .Jal dst _ => [dst]
  | .Jalr dst _ => [dst]
  | .Branch _ _ _ _ => []
  | .SCmpZ dst _ _ => [dst]
  | .Comment _ => []

/-- A small concrete IR program (spec Scenario A: a constant then a
print, terminated by an exit), used to exercise the entry points. -/
def exampleIr : Tir.Program :=
  { decl := ["x"]
    block := [("entry", { insn := [.Const "x" 5, .Print "x"], term := [.Exit] })] }

theorem wrap32_add_wrap32 (x b : Int) : wrap32 (wrap32 x + b) = wrap32 (x + b) := by
  unfold wrap32
  omega

theorem wrap32_eq_self (x : Int) (h : wf32 x) : wrap32 x = x := by
  unfold wf32 at h
  unfold wrap32
  omega

theorem add32_assoc (x a b : Int) : add32 (add32 x a) b = add32 x (a + b) := by
  unfold add32
  rw [wrap32_add_wrap32, Int.add_assoc]

theorem add32_zero (x : Int) (h : wf32 x) : add32 x 0 = x := by
  unfold add32
  rw [Int.add_zero]
  exact wrap32_eq_self x h

theorem string_append_ne_of_ne (s1 s2 t : String) (h : s1 ≠ s2) : s1 ++ t ≠ s2 ++ t := by
  intro he
  apply h
  have hd : (s1 ++ t).data = (s2 ++ t).data := congrArg String.data he
  rw [String.data_append, String.data_append] at hd
  exact String.ext (List.append_cancel_right hd)

/-- C1: for every IR program, generating and rendering it twice yields
byte-identical assembly text — the composition of the `code_gen` entry
point and the `asm_code` render entry point is a deterministic, pure
function of the IR program. -/
theorem codegen_render_deterministic (p q : Tir.Program) (h : p = q) :
    Option.map asm_code (code_gen p) = Option.map asm_code (code_gen q) := by
  rw [h]

theorem codegen_render_deterministic_witness :
    Option.map asm_code (code_gen exampleIr) = Option.map asm_code (code_gen exampleIr) :=
  codegen_render_deterministic exampleIr exampleIr rfl

/-- C2: offsetting a register location by any non-zero amount fails fast
(no location is returned), and offsetting it by zero returns the same
register location unchanged. -/
theorem register_offset_fails_fast (r : Register) (n : Int) (h : n ≠ 0) :
    Location.offset (.Reg r) n = none ∧ Location.offset (.Reg r) 0 = some (.Reg r) := by
  constructor
  · simp [Location.offset, h]
  · simp [Location.offset]

theorem register_offset_fails_fast_witness :
    (4 : Int) ≠ 0 ∧
      (Location.offset (.Reg .T0) 4 = none ∧
        Location.offset (.Reg .T0) 0 = some (.Reg .T0)) :=
  ⟨by decide, register_offset_fails_fast .T0 4 (by decide)⟩

/-- C3: `used_registers` returns every register the instruction reads or
writes, including the base register of every register-based memory
operand. -/
theorem used_registers_complete (i : Instruction) (r : Register)
    (h : r ∈ specReadRegisters i ∨ r ∈ specWrittenRegisters i) :
    r ∈ i.used_registers := by
  cases i <;>
    simp [specReadRegisters, specWrittenRegisters, Instruction.used_registers] at h ⊢ <;>
    tauto

theorem used_registers_complete_witness :
    (Register.Sp ∈ specReadRegisters (.Sd (.Mem .Sp 0) .A0) ∨
      Register.Sp ∈ specWrittenRegisters (.Sd (.Mem .Sp 0) .A0)) ∧
      Register.Sp ∈ (Instruction.Sd (.Mem .Sp 0) .A0).used_registers :=
  ⟨Or.inl (by decide), used_registers_complete (.Sd (.Mem .Sp 0) .A0) .Sp (Or.inl (by decide))⟩

/-- C4: a Local jump target is printed through the composite of its
owning scope identifier and its local identifier, so two distinct scopes
each declaring a local block named the same render to two different
label strings. -/
theorem local_labels_distinct (s1 s2 l : Ident) (h : s1 ≠ s2) :
    targetToString (.Local (mangleLabel s1 l)) ≠ targetToString (.Local (mangleLabel s2 l)) := by
  have h2 := string_append_ne_of_ne s1 s2 ("." ++ l ++ " # local, basic block") h
  intro he
  apply h2
  simp only [targetToString, mangleLabel] at he
  simp only [String.append_assoc] at he ⊢
  exact he

theorem local_labels_distinct_witness :
    ("main" : Ident) ≠ "aux" ∧
      targetToString (.Local (mangleLabel "main" "loop"))
        ≠ targetToString (.Local (mangleLabel "aux" "loop")) :=
  ⟨by decide, local_labels_distinct "main" "aux" "loop" (by decide)⟩

/-- C5 counterexample: the set-if-compare-zero instruction can carry the
condition `LessEq`, and then it renders with the mnemonic `slez`, which
is none of the four claimed pseudo-ops seqz, snez, sltz, sgtz. -/
theorem scmpz_not_only_four :
    instrToString (.SCmpZ .A0 .A1 .LessEq) = "slez a0, a1" ∧
      scmpzMnemonic .LessEq ≠ "seqz" ∧ scmpzMnemonic .LessEq ≠ "snez" ∧
      scmpzMnemonic .LessEq ≠ "sltz" ∧ scmpzMnemonic .LessEq ≠ "sgtz" := by
  refine ⟨by decide, by decide, by decide, by decide, by decide⟩

/-- C5 (amended): every set-if-compare-zero instruction renders as the
mnemonic formed by `s`, the condition name and `z`, followed by its two
registers; over the six condition values this mnemonic is one of exactly
seqz, snez, sltz, slez, sgtz, sgez. -/
theorem scmpz_renders_six_mnemonics (dst lhs : Register) (cond : Condition) :
    instrToString (.SCmpZ dst lhs cond)
        = scmpzMnemonic cond ++ " " ++ regName dst ++ ", " ++ regName lhs ∧
      scmpzMnemonic cond ∈ (["seqz", "snez", "sltz", "slez", "sgtz", "sgez"] : List String) := by
  constructor
  · cases cond <;> simp [instrToString, scmpzMnemonic, condName, String.append_assoc]
  · cases cond <;> decide

/-- C6: every Program value the code-generation entry point produces has
a stack_space that is a multiple of 16 bytes. -/
theorem stack_space_multiple_of_16 (ir : Tir.Program) (p : Program)
    (h : code_gen ir = some p) : p.stack_space % 16 = 0 := by
  unfold code_gen at h
  cases hb : lowerBlocks "main" (ir.block.map Prod.fst) ir.decl [] ir.block with
  | none => rw [hb] at h; exact Option.noConfusion h
  | some lb =>
      rw [hb] at h
      simp only [Option.map_some', Option.some.injEq] at h
      rw [← h]
      unfold roundUp16
      exact Int.mul_emod_right 16 _

theorem stack_space_multiple_of_16_witness :
    code_gen exampleIr
        = some ((code_gen exampleIr).getD
            { id := "", basic_blocks := [], stack_space := 0, used_registers := [] }) ∧
      ((code_gen exampleIr).getD
          { id := "", basic_blocks := [], stack_space := 0, used_registers := [] }).stack_space
          % 16 = 0 :=
  ⟨rfl, stack_space_multiple_of_16 exampleIr _ rfl⟩

/-- C7: `read` is the register-register move when the source is a
register and the load-doubleword otherwise; `write` is a move when the
destination is a register and the store-doubleword otherwise; and the
synthesized move is exactly the add-immediate-zero instruction. -/
theorem read_write_mov_forms :
    (∀ d s : Register, Instruction.mov d s = .ArithI .Add d s 0) ∧
      (∀ (d r : Register), Instruction.read d (.Reg r) = Instruction.mov d r) ∧
      (∀ (d : Register) (m : Memory), Instruction.read d (.MemoryL m) = .Ld d m) ∧
      (∀ (r s : Register), Instruction.write (.Reg r) s = Instruction.mov r s) ∧
      (∀ (m : Memory) (s : Register), Instruction.write (.MemoryL m) s = .Sd m s) :=
  ⟨fun _ _ => rfl, fun _ _ => rfl, fun _ _ => rfl, fun _ _ => rfl, fun _ _ => rfl⟩

/-- C8: `jump` constructs a Jal whose link destination is the zero
register, and `call` constructs a Jal whose link destination is the
return-address register and whose target is the Global target for the
callee. -/
theorem jump_call_forms :
    (∀ t : JumpTarget, Instruction.jump t = .Jal .Zero t) ∧
      (∀ f : Ident, Instruction.call f = .Jal .Ra (.Global f)) :=
  ⟨fun _ => rfl, fun _ => rfl⟩

/-- C9: offsetting memory locations is an additive action — offsets
compose by addition, offsetting by zero is the identity on memory
locations, and `Location.offset` by zero returns every location
unchanged. -/
theorem memory_offset_additive (m : Memory) (a b : Int) (l : Location)
    (hm : m.wf) (hl : l.wf) :
    (m.offset a).offset b = m.offset (a + b) ∧ m.offset 0 = m ∧ l.offset 0 = some l := by
  refine ⟨?_, ?_, ?_⟩
  · cases m <;> simp [Memory.offset, add32_assoc]
  · cases m <;> (unfold Memory.wf at hm; simp [Memory.offset, add32_zero _ hm])
  · cases l with
    | Reg r => simp [Location.offset]
    | MemoryL m' =>
        unfold Location.wf at hl
        cases m' <;>
          (unfold Memory.wf at hl; simp [Location.offset, Memory.offset, add32_zero _ hl])

theorem memory_offset_additive_witness :
    (Memory.Mem .Sp 8).wf ∧ (Location.Reg .A0).wf ∧
      (((Memory.Mem .Sp 8).offset 4).offset (-4) = (Memory.Mem .Sp 8).offset (4 + -4) ∧
        (Memory.Mem .Sp 8).offset 0 = Memory.Mem .Sp 8 ∧
        (Location.Reg .A0).offset 0 = some (Location.Reg .A0)) :=
  ⟨by decide, by decide,
    memory_offset_additive (.Mem .Sp 8) 4 (-4) (.Reg .A0) (by decide) (by decide)⟩

/-- C10: a Global memory operand names no base register — its
`used_registers` is `none` — so the La/Ld/Sd register footprint over a
Global operand is exactly the instruction's own register operand. -/
theorem global_operand_no_registers :
    (∀ (i : Nat) (o : Int), Memory.used_registers (.Global i o) = none) ∧
      (∀ (i : Nat) (o : Int) (dst : Register),
        (Instruction.La dst (.Global i o)).used_registers = [dst]) ∧
      (∀ (i : Nat) (o : Int) (dst : Register),
        (Instruction.Ld dst (.Global i o)).used_registers = [dst]) ∧
      (∀ (i : Nat) (o : Int) (src : Register),
        (Instruction.Sd (.Global i o) src).used_registers = [src]) :=
  ⟨fun _ _ => rfl, fun _ _ _ => rfl, fun _ _ _ => rfl, fun _ _ _ => rfl⟩
